import Mathlib

/-!
Shallow embedding of the macOS scripting-dictionary export pipeline
(`generate_objc_pdfs.py` and `convert_pdfs_to_text.py`) and proofs of the
frozen specification claims about it.

Conventions of the embedding:
* Python strings become `String` (or `List Char` where character-level
  reasoning is needed); filesystem paths become lists of path components.
* Unicode NFKD normalization is an external collaborator and is modelled
  as an arbitrary function parameter.
* External processes (swiftc, sdp, the two converter binaries) are
  modelled by environment records describing their observable outcomes;
  the scripts' control flow over those outcomes is translated faithfully.
* Python exceptions become `Except String`; `while` loops become fueled
  recursion together with lemmas showing the fuel suffices.
-/

namespace MacScripts

/-! ### Decimal rendering of natural numbers

Embedding of Python `str(counter)` for a nonnegative integer: the decimal
digit string, built exactly like the core `Nat.toDigitsCore` loop but with
structural fuel so that it evaluates by `decide`. -/

def natDecAux : Nat → Nat → List Char → List Char
  | 0, _, acc => acc
  | fuel + 1, n, acc =>
    if n < 10 then Char.ofNat (48 + n % 10) :: acc
    else natDecAux fuel (n / 10) (Char.ofNat (48 + n % 10) :: acc)

/-- Decimal digit string of `n`, the embedding of Python `str(n)`. -/
def natDec (n : Nat) : List Char := natDecAux (n + 1) n []

/-- Decode a decimal digit string back to the number it denotes. -/
def decodeDec (cs : List Char) : Nat :=
  cs.foldl (fun acc c => acc * 10 + (c.toNat - 48)) 0

/-- Embedding of Python `str(n)` as a `String`. -/
def pyStrNat (n : Nat) : String := ⟨natDec n⟩

/-! ### `sanitize_filename` (generate_objc_pdfs.py, lines 43-48)

The Python function NFKD-normalizes, keeps printable ASCII, replaces
`/` and `:` by `-`, and rejoins `str.split()` words with single spaces,
falling back to the literal `Untitled` when nothing remains.  NFKD
normalization is an external collaborator, passed in as a function. -/

/-- Python `32 <= ord(ch) < 127`. -/
def printableAscii (c : Char) : Bool := 32 ≤ c.toNat && c.toNat < 127

/-- Python `''.join(ch for ch in normalized if 32 <= ord(ch) < 127)`. -/
def asciiOnly (cs : List Char) : List Char := cs.filter printableAscii

/-- Python `.replace('/', '-')` (character-wise, as `/` is one character). -/
def replaceSlash (cs : List Char) : List Char := cs.map fun c => if c = '/' then '-' else c

/-- Python `.replace(':', '-')`. -/
def replaceColon (cs : List Char) : List Char := cs.map fun c => if c = ':' then '-' else c

/-- Python `str.split()` with no argument: split on whitespace runs,
dropping empty words.  Fueled; `pySplit` supplies sufficient fuel. -/
def pySplitAux : Nat → List Char → List (List Char)
  | 0, _ => []
  | fuel + 1, cs =>
    match cs.dropWhile Char.isWhitespace with
    | [] => []
    | c :: rest =>
      (c :: rest.takeWhile (fun x => !x.isWhitespace)) ::
        pySplitAux fuel (rest.dropWhile (fun x => !x.isWhitespace))

def pySplit (cs : List Char) : List (List Char) := pySplitAux (cs.length + 1) cs

/-- Python `sep.join(words)`. -/
def joinSep (sep : List Char) : List (List Char) → List Char
  | [] => []
  | [w] => w
  | w :: x :: ws => w ++ sep ++ joinSep sep (x :: ws)

/-- Python `' '.join(cleaned.split())`. -/
def collapseWs (cs : List Char) : List Char := joinSep [' '] (pySplit cs)

/-- Embedding of `sanitize_filename`, with NFKD normalization abstract. -/
def sanitize_filename (nfkd : List Char → List Char) (name : List Char) : List Char :=
  let normalized := nfkd name
  let cleaned := replaceColon (replaceSlash (asciiOnly normalized))
  let collapsed := collapseWs cleaned
  if collapsed = [] then "Untitled".data else collapsed

/-- Adjacent characters are never both whitespace. -/
def NoWsRun (cs : List Char) : Prop :=
  List.Chain' (fun a b => ¬(a.isWhitespace = true ∧ b.isWhitespace = true)) cs

/-! ### `unique_name` (generate_objc_pdfs.py, lines 51-58)

The Python function tries `base`, then `f"{base} (2)"`, `f"{base} (3)"`, …
until a candidate is not in `used`, then registers and returns it.  The
`while` loop is embedded with fuel `used.card + 1`, which the lemmas below
show is always sufficient. -/

/-- Candidate tried at loop iteration `k`: `base` first, then
`base ++ " (" ++ str (k + 1) ++ ")"` for `k ≥ 1` (the counter starts at 2). -/
def uniqueCandidate (base : String) : Nat → String
  | 0 => base
  | k + 1 => base ++ " (" ++ pyStrNat (k + 2) ++ ")"

/-- Fueled embedding of the `while candidate in used` loop, starting at
iteration `k`. -/
def findFreeName (base : String) (used : Finset String) : Nat → Nat → String
  | 0, k => uniqueCandidate base k
  | fuel + 1, k =>
    if uniqueCandidate base k ∈ used then findFreeName base used fuel (k + 1)
    else uniqueCandidate base k

/-- Embedding of `unique_name`: returns the chosen name and the updated
`used` set (Python mutates the set in place). -/
def unique_name (base : String) (used : Finset String) : String × Finset String :=
  let candidate := findFreeName base used (used.card + 1) 0
  (candidate, insert candidate used)

/-- One shared-used-set batch of `unique_name` calls, as `generate_pdfs`
performs them: each call feeds the set returned by the previous one. -/
def unique_name_batch (bases : List String) (used : Finset String) :
    List String × Finset String :=
  bases.foldl (fun acc b =>
    let r := unique_name b acc.2
    (acc.1 ++ [r.1], r.2)) ([], used)

/-! ### `find_script_resources` (generate_objc_pdfs.py, lines 131-172)

A filesystem path is its tuple of components (Python `path.parts`).  The
bundle's resource tree is abstracted to the outcome of the two `rglob`
scans plus a file-existence oracle; the Info.plist `OSAScriptingDefinition`
value is abstracted to the three shapes the code distinguishes. -/

abbrev PyPath := List String

/-- Python `pathlib` stem: the final component without its suffix, where a
suffix needs a dot that is neither leading nor trailing. -/
def stemChars (s : List Char) : List Char :=
  let r := s.reverse.takeWhile (fun c => c != '.')
  if r.length = s.length then s
  else if r.length ≠ 0 ∧ r.length < s.length - 1 then s.take (s.length - r.length - 1)
  else s

/-- Python `Path.with_suffix`: replace the last component's suffix. -/
def withSuffix (p : PyPath) (suffix : String) : PyPath :=
  match p.getLast? with
  | none => p
  | some last => p.dropLast ++ [String.mk (stemChars last.data) ++ suffix]

/-- The sort key of line 160: localization preference then depth.  Note the
first component tests membership of the whole component string `.lproj` in
`path.parts`, exactly as the Python does. -/
def sdefKey (p : PyPath) : Nat × Nat :=
  ((if ¬ (".lproj" ∈ p) then 0 else if "en.lproj" ∈ p then 0 else 1), p.length)

/-- Lexicographic strict order on sort keys (Python tuple `<`). -/
def keyLtB (a b : Nat × Nat) : Bool := a.1 < b.1 || (a.1 == b.1 && a.2 < b.2)

/-- Python `sorted(candidates, key=sdefKey)[0]`: the earliest candidate
with minimal key (Python sort is stable). -/
def selectSdef : List PyPath → Option PyPath
  | [] => none
  | p :: ps =>
    some (ps.foldl (fun best q => if keyLtB (sdefKey q) (sdefKey best) then q else best) p)

/-- Python `Path.__lt__`: lexicographic comparison of the component lists. -/
def pathLtB : PyPath → PyPath → Bool
  | [], [] => false
  | [], _ :: _ => true
  | _ :: _, [] => false
  | a :: as, b :: bs => if a < b then true else if a = b then pathLtB as bs else false

/-- Python `suite_candidates.sort()` (a stable sort under `Path.__lt__`). -/
def sortedSuites (l : List PyPath) : List PyPath :=
  l.insertionSort fun a b => pathLtB b a = false

/-- Outcome of the two `rglob` scans over `Contents/Resources`, plus the
existence oracle used for the `.scriptTerminology` companion. -/
structure ResourceTree where
  resourcesExists : Bool
  sdefs : List PyPath
  suites : List PyPath
  fileExists : PyPath → Bool

/-- The `OSAScriptingDefinition` Info.plist value: an inline bytes blob, or
a string reference together with whether the resolved path exists. -/
inductive OsaScripting where
  | blob
  | ref (resolved : PyPath) (found : Bool)

/-- Embedding of `find_script_resources`.  `tempSdef` is the temporary file
the bytes blob would be materialized to. -/
def find_script_resources (osa : Option OsaScripting) (tree : ResourceTree)
    (tempSdef : PyPath) : Option (List PyPath) :=
  match osa with
  | some .blob => some [tempSdef]
  | some (.ref resolved found) => if found then some [resolved] else none
  | none =>
    if tree.resourcesExists then
      match selectSdef tree.sdefs with
      | some best => some [best]
      | none =>
        match (sortedSuites tree.suites).head? with
        | some suite =>
          let term := withSuffix suite ".scriptTerminology"
          if tree.fileExists term then some [suite, term] else none
        | none => none
    else none

/-! ### The generator pipeline (generate_objc_pdfs.py, lines 61-116 and 175-286)

External processes are abstracted to environment records carrying their
observable outcomes; the scripts' branching over those outcomes is
translated directly.  `GenState` captures the filesystem and console
effects the claims talk about. -/

/-- Python `sanitize_filename` at `String` type. -/
def sanitizeStr (nfkd : List Char → List Char) (s : String) : String :=
  String.mk (sanitize_filename nfkd s.data)

/-- Python `pat in text` for strings, via `splitOn`. -/
def containsSubstr (s pat : String) : Bool := (s.splitOn pat).length != 1

/-- Observable state of the text2pdf (or pdf2text) build: the source file
may be missing; the binary may already be present and newer than the
source; else a rebuild runs, with the compiler present or not and the
given exit code and diagnostic text. -/
inductive BuildEnv where
  | missingSource
  | upToDate
  | stale (swiftcFound : Bool) (compileExit : Nat) (errText : String)

/-- The error-signature classification of lines 98-115. -/
def classifyText2pdfFailure (err : String) : String :=
  if containsSubstr err "module cache" || containsSubstr err "Operation not permitted" then
    "Swift compiler could not write its module cache. Ensure the sandbox allows writes to the repository or run this script outside the restricted environment."
  else if containsSubstr err "failed to build module \x27Swift\x27" ||
      containsSubstr err "this SDK is not supported by the compiler" then
    "Swift compiler/toolchain mismatch: install or select the full Xcode toolchain via `sudo xcode-select -s /Applications/Xcode.app/Contents/Developer`."
  else if containsSubstr err "redefinition of module \x27SwiftBridging\x27" then
    "Swift headers from the Command Line Tools are conflicting. Switching to the full Xcode toolchain usually resolves the duplicate module definition."
  else "Failed to compile text converter: " ++ err

/-- Embedding of `ensure_text2pdf`: raising becomes `Except.error`. -/
def ensure_text2pdf : BuildEnv → Except String Unit
  | .missingSource => .error "Missing converter source at tools/text2pdf.swift"
  | .upToDate => .ok ()
  | .stale false _ _ =>
    .error "swiftc not found; install Xcode command-line tools or Swift toolchain."
  | .stale true compileExit errText =>
    if compileExit ≠ 0 then .error (classifyText2pdfFailure errText) else .ok ()

/-- Observable behavior of the `sdp` invocation for one application: the
tool may be absent from the search path; else it runs with the given exit
code and diagnostic text, and produces the expected header file or not. -/
inductive SdpEnv where
  | missing
  | run (exitCode : Nat) (errText : String) (headerProduced : Bool)

/-- Embedding of `run_sdp` (lines 175-191). -/
def run_sdp (env : SdpEnv) (basename : String) : Except String String :=
  match env with
  | .missing => .error "sdp not found; install Xcode to access scripting bridge tools."
  | .run exitCode errText headerProduced =>
    if exitCode ≠ 0 then .error ("sdp failed for " ++ basename ++ ": " ++ errText)
    else if headerProduced then .ok (basename ++ ".h")
    else .error ("sdp did not produce expected header " ++ basename ++ ".h")

/-- Python `''.join(ch for ch in safe_name if ch.isalnum()) or 'Dictionary'`. -/
def pyBasename (safe : String) : String :=
  let alnum := safe.data.filter fun c => c.isAlphanum
  if alnum = [] then "Dictionary" else String.mk alnum

/-- One application as the `generate_pdfs` loop observes it: its resolved
display name, the `find_script_resources` outcome, the `sdp` behavior, and
the converter's exit status. -/
structure AppEntry where
  appName : String
  resources : Option (List PyPath)
  sdpEnv : SdpEnv
  converterExit : Nat

/-- State threaded through the `generate_pdfs` loop: the `.pdf` stems on
disk in the output directory, the used-names set, and both console
streams. -/
structure GenState where
  diskPdfs : List String
  used : Finset String
  logs : List String
  warns : List String

/-- One iteration of the loop of lines 234-261. -/
def processApp (nfkd : List Char → List Char) (st : GenState) (a : AppEntry) : GenState :=
  let safe_name := sanitizeStr nfkd a.appName
  if safe_name ∈ st.diskPdfs then
    { st with
      logs := st.logs ++
        ["Skipping " ++ a.appName ++ ": " ++ safe_name ++ ".pdf already exists"] }
  else
    match a.resources with
    | none =>
      { st with
        warns := st.warns ++
          ["Skipping " ++ a.appName ++ ": no scripting definition found"] }
    | some [] =>
      { st with
        warns := st.warns ++
          ["Skipping " ++ a.appName ++ ": no scripting definition found"] }
    | some (_ :: _) =>
      match run_sdp a.sdpEnv (pyBasename safe_name) with
      | .error e => { st with warns := st.warns ++ [a.appName ++ ": " ++ e] }
      | .ok _ =>
        let r := unique_name safe_name st.used
        if a.converterExit = 0 then
          { st with
            used := r.2
            diskPdfs := st.diskPdfs ++ [r.1]
            logs := st.logs ++ ["Wrote " ++ r.1 ++ ".pdf"] }
        else
          { st with
            used := r.2
            warns := st.warns ++ ["Failed to convert header for " ++ a.appName] }

/-- A whole generator run's inputs: the build environment, the `.pdf`
stems already in the output directory, and the deduplicated application
sequence that `iter_applications` yields. -/
structure GenWorld where
  buildEnv : BuildEnv
  existingPdfs : List String
  apps : List AppEntry

/-- Lines 219-221: the initial used-names set is seeded from the existing
PDF stems. -/
def initGenState (w : GenWorld) : GenState :=
  { diskPdfs := w.existingPdfs, used := w.existingPdfs.toFinset, logs := [], warns := [] }

/-- Embedding of `generate_pdfs`: setup first, then the total loop. -/
def generate_pdfs (nfkd : List Char → List Char) (w : GenWorld) : Except String GenState :=
  match ensure_text2pdf w.buildEnv with
  | .error e => .error e
  | .ok _ => .ok (w.apps.foldl (processApp nfkd) (initGenState w))

/-- Embedding of `main` (lines 273-286): exit code and stderr lines. -/
def mainGenerate (nfkd : List Char → List Char) (w : GenWorld) : Nat × List String :=
  match generate_pdfs nfkd w with
  | .error e => (1, ["warning: " ++ e])
  | .ok st => (0, st.warns)

/-- Fixture: an application that resolves one `.sdef` and whose `sdp` and
converter runs succeed. -/
def appFooOk : AppEntry :=
  { appName := "Foo", resources := some [["Foo.sdef"]]
    sdpEnv := .run 0 "" true, converterExit := 0 }

/-- Fixture: an application for which `sdp` is absent from the path. -/
def appMailNoSdp : AppEntry :=
  { appName := "Mail", resources := some [["Mail.sdef"]]
    sdpEnv := .missing, converterExit := 0 }

/-- Fixture: an empty output directory. -/
def genStateEmpty : GenState := { diskPdfs := [], used := ∅, logs := [], warns := [] }

/-! ### The converter pipeline (convert_pdfs_to_text.py)

`convert_pdfs` re-runs over a directory of PDFs, skipping pairs whose text
output is at least as new as the PDF, and `build_readme` writes the index.
The filesystem is abstracted to the glob results plus the existing
text-file map; the converter binary to a per-input behavior function. -/

/-- Python `str.endswith` over the character list. -/
def strEndsWith (s t : String) : Bool := s.data.reverse.take t.data.length == t.data.reverse

/-- Python `str.startswith` over the character list. -/
def strStartsWith (s t : String) : Bool := s.data.take t.data.length == t.data

/-- Names matched by `glob('*.txt')`: ending in `.txt`, not hidden. -/
def txtGlob (n : String) : Bool := strEndsWith n ".txt" && !(strStartsWith n ".")

/-- One Markdown bullet of the index (line 114). -/
def bulletOf (n : String) : String :=
  "- [" ++ String.mk (stemChars n.data) ++ "](" ++ n ++ ")"

/-- The fixed leading lines of the index (lines 116-121). -/
def readmeHeader : List String :=
  ["# Extracted AppleScript Dictionaries", "",
    "Text exports generated from Objective-C scripting bridge headers.", ""]

/-- Embedding of `build_readme` as a function from the text-directory
entries to the written README content. -/
def build_readme (entries : List String) : String :=
  let sortedTxt := (entries.filter txtGlob).insertionSort (· ≤ ·)
  let items := (sortedTxt.filter fun n => n ≠ "README.md").map bulletOf
  String.intercalate "\n"
    (readmeHeader ++ (if items = [] then ["No text exports available."] else items) ++ [""])

/-- One text output file: its modification time and contents. -/
structure TxtFile where
  mtime : Nat
  content : String
deriving DecidableEq

/-- One PDF input file: its stem and modification time. -/
structure PdfFile where
  name : String
  mtime : Nat
deriving DecidableEq

/-- Behavior of one pdf2text invocation: exit status, and the text file it
writes on success. -/
structure ConvBehavior where
  exitCode : Nat
  output : TxtFile

/-- A whole converter run's inputs. -/
structure ConvWorld where
  targetExists : Bool
  pdfs : List PdfFile
  txts : List (String × TxtFile)
  toolEnv : BuildEnv
  conv : String → ConvBehavior

/-- The error-signature classification of lines 68-75. -/
def classifyPdf2textFailure (err : String) : String :=
  if containsSubstr err "this SDK is not supported by the compiler" ||
      containsSubstr err "failed to build module \x27Swift\x27" then
    "Swift compiler/toolchain mismatch: select the full Xcode toolchain via `sudo xcode-select -s /Applications/Xcode.app/Contents/Developer`."
  else "Failed to compile converter: " ++ err

/-- Embedding of `ensure_tool` (lines 29-77). -/
def ensure_tool : BuildEnv → Except String Unit
  | .missingSource => .error "Missing converter source at tools/pdf2text.swift"
  | .upToDate => .ok ()
  | .stale false _ _ => .error "swiftc not found; install Xcode toolchain to build converter."
  | .stale true compileExit errText =>
    if compileExit ≠ 0 then .error (classifyPdf2textFailure errText) else .ok ()

/-- State threaded through the `convert_pdfs` loop, plus the observable
side effects the claims mention. -/
structure ConvState where
  txts : List (String × TxtFile)
  invoked : List String
  toolBuilt : Bool
  textDirCreated : Bool
  readme : Option String
  logs : List String
  warns : List String

/-- Write the text file for stem `k`: overwrite if present, create else. -/
def setTxt (txts : List (String × TxtFile)) (k : String) (v : TxtFile) :
    List (String × TxtFile) :=
  if (txts.lookup k).isSome then txts.map fun q => if q.1 = k then (k, v) else q
  else txts ++ [(k, v)]

/-- Line 95's staleness check: the text output exists and is at least as
new as the PDF input. -/
def txtUpToDate (txts : List (String × TxtFile)) (p : PdfFile) : Bool :=
  match txts.lookup p.name with
  | some t => decide (p.mtime ≤ t.mtime)
  | none => false

/-- One iteration of the loop of lines 93-102. -/
def processPdf (conv : String → ConvBehavior) (st : ConvState) (p : PdfFile) : ConvState :=
  if txtUpToDate st.txts p then
    { st with logs := st.logs ++ ["Skipping " ++ p.name ++ ".pdf: text already up to date"] }
  else
    let st' := { st with
      logs := st.logs ++ ["Extracting text from " ++ p.name ++ ".pdf"]
      invoked := st.invoked ++ [p.name] }
    let b := conv p.name
    if b.exitCode ≠ 0 then
      { st' with warns := st'.warns ++ ["Failed to convert " ++ p.name ++ ".pdf"] }
    else { st' with txts := setTxt st'.txts p.name b.output }

/-- Embedding of `convert_pdfs` (lines 80-104). -/
def convert_pdfs (w : ConvWorld) : Except String ConvState :=
  if w.targetExists = false then .error "PDF directory AppScripts does not exist"
  else
    let pdf_files := w.pdfs.insertionSort fun a b => a.name ≤ b.name
    if pdf_files = [] then
      .ok { txts := w.txts, invoked := [], toolBuilt := false, textDirCreated := false,
            readme := none, logs := [], warns := ["No PDF files found in AppScripts"] }
    else
      match ensure_tool w.toolEnv with
      | .error e => .error e
      | .ok _ =>
        let st0 : ConvState :=
          { txts := w.txts, invoked := [], toolBuilt := true, textDirCreated := true,
            readme := none, logs := [], warns := [] }
        let st := pdf_files.foldl (processPdf w.conv) st0
        .ok { st with readme := some (build_readme (st.txts.map fun q => q.1 ++ ".txt")) }

/-- Embedding of the converter script's `main` (lines 130-136). -/
def mainConvert (w : ConvWorld) : Nat × List String :=
  match convert_pdfs w with
  | .error e => (1, ["warning: " ++ e])
  | .ok st => (0, st.warns)

/-- Fixture: an application with no scripting definition at all. -/
def appNotesNoRes : AppEntry :=
  { appName := "Notes", resources := none, sdpEnv := .missing, converterExit := 0 }

/-- Fixture: a converter binary that always exits 1. -/
def convAlwaysFail : String → ConvBehavior :=
  fun _ => { exitCode := 1, output := { mtime := 0, content := "" } }

/-- Fixture: the loop state right after `ensure_tool` succeeded. -/
def convStateEmpty : ConvState :=
  { txts := [], invoked := [], toolBuilt := true, textDirCreated := true,
    readme := none, logs := [], warns := [] }

/-- Fixture: a directory with one PDF (mtime 5) whose text output (mtime 7)
is newer, and a converter that would fail if it were ever invoked. -/
def convC5World : ConvWorld :=
  { targetExists := true, pdfs := [{ name := "Foo", mtime := 5 }]
    txts := [("Foo", { mtime := 7, content := "orig" })], toolEnv := .upToDate
    conv := convAlwaysFail }

/-- Fixture: the state `convert_pdfs` reaches on `convC5World`. -/
def convC5State : ConvState :=
  { txts := [("Foo", { mtime := 7, content := "orig" })], invoked := []
    toolBuilt := true, textDirCreated := true
    readme := some "# Extracted AppleScript Dictionaries\n\nText exports generated from Objective-C scripting bridge headers.\n\n- [Foo](Foo.txt)\n"
    logs := ["Skipping Foo.pdf: text already up to date"], warns := [] }

/-! ### Proofs

Auxiliary lemmas first, then the theorems settling the claims. -/

theorem charOfNat_toNat : ∀ k, k < 128 → (Char.ofNat k).toNat = k := by decide

theorem natDecAux_append (fuel : Nat) :
    ∀ (n : Nat) (acc : List Char), natDecAux fuel n acc = natDecAux fuel n [] ++ acc := by
  induction fuel with
  | zero => intro n acc; simp [natDecAux]
  | succ fuel ih =>
    intro n acc
    by_cases h : n < 10
    · simp [natDecAux, h]
    · simp only [natDecAux, if_neg h]
      rw [ih (n / 10) (Char.ofNat (48 + n % 10) :: acc),
        ih (n / 10) [Char.ofNat (48 + n % 10)], List.append_assoc]
      rfl

theorem decodeDec_natDecAux (fuel : Nat) :
    ∀ n, n < fuel → decodeDec (natDecAux fuel n []) = n := by
  induction fuel with
  | zero => intro n h; omega
  | succ fuel ih =>
    intro n hn
    by_cases h : n < 10
    · have hd : (Char.ofNat (48 + n % 10)).toNat = 48 + n % 10 :=
        charOfNat_toNat _ (by omega)
      simp only [natDecAux, if_pos h, decodeDec, List.foldl_cons, List.foldl_nil, hd]
      omega
    · have hpos : 0 < n := by omega
      have hdiv : n / 10 < fuel := by
        have := Nat.div_lt_self hpos (by norm_num : (1:Nat) < 10)
        omega
      have hd : (Char.ofNat (48 + n % 10)).toNat = 48 + n % 10 :=
        charOfNat_toNat _ (by have := Nat.mod_lt n (show 0 < 10 by norm_num); omega)
      simp only [natDecAux, if_neg h]
      rw [natDecAux_append]
      unfold decodeDec
      rw [List.foldl_append]
      have hrec : decodeDec (natDecAux fuel (n / 10) []) = n / 10 := ih _ hdiv
      unfold decodeDec at hrec
      rw [hrec]
      simp only [List.foldl_cons, List.foldl_nil, hd]
      omega

theorem decodeDec_natDec (n : Nat) : decodeDec (natDec n) = n :=
  decodeDec_natDecAux (n + 1) n (Nat.lt_succ_self n)

theorem natDec_injective : Function.Injective natDec := by
  intro m n h
  have := decodeDec_natDec m
  rw [h, decodeDec_natDec] at this
  omega

theorem pyStrNat_injective : Function.Injective pyStrNat := by
  intro m n h
  exact natDec_injective (congrArg String.data h)

theorem dropWhile_head_false {α : Type} (p : α → Bool) :
    ∀ (l : List α) (c : α) (rest : List α), l.dropWhile p = c :: rest → p c = false := by
  intro l
  induction l with
  | nil => intro c rest h; simp [List.dropWhile] at h
  | cons x xs ih =>
    intro c rest h
    rw [List.dropWhile_cons] at h
    split at h
    · exact ih c rest h
    · rename_i hpx
      cases h
      simp only [Bool.not_eq_true] at hpx
      exact hpx

theorem pySplitAux_mem (fuel : Nat) :
    ∀ (cs : List Char) (w : List Char), w ∈ pySplitAux fuel cs →
      w ≠ [] ∧ ∀ c ∈ w, c.isWhitespace = false ∧ c ∈ cs := by
  induction fuel with
  | zero => intro cs w h; simp [pySplitAux] at h
  | succ fuel ih =>
    intro cs w h
    cases hd : cs.dropWhile Char.isWhitespace with
    | nil => simp [pySplitAux, hd] at h
    | cons c rest =>
      have hsub : (c :: rest).Sublist cs := hd ▸ List.dropWhile_sublist _
      simp only [pySplitAux, hd, List.mem_cons] at h
      rcases h with h | h
      · subst h
        refine ⟨by simp, ?_⟩
        intro x hx
        rcases List.mem_cons.mp hx with hx | hx
        · rw [hx]
          exact ⟨dropWhile_head_false _ cs c rest hd, hsub.subset (by simp)⟩
        · have hws := List.mem_takeWhile_imp hx
          have hmem : x ∈ rest := (List.takeWhile_sublist _).subset hx
          exact ⟨by simpa using hws, hsub.subset (by simp [hmem])⟩
      · have hrec := ih (rest.dropWhile fun x => !x.isWhitespace) w h
        refine ⟨hrec.1, ?_⟩
        intro x hx
        have := hrec.2 x hx
        refine ⟨this.1, ?_⟩
        have hmem : x ∈ rest := (List.dropWhile_sublist _).subset this.2
        exact hsub.subset (by simp [hmem])

theorem joinSep_mem (sep : List Char) :
    ∀ (l : List (List Char)) (c : Char), c ∈ joinSep sep l →
      c ∈ sep ∨ ∃ w ∈ l, c ∈ w := by
  intro l
  induction l with
  | nil => intro c h; simp [joinSep] at h
  | cons w ws ih =>
    intro c h
    cases ws with
    | nil =>
      simp only [joinSep] at h
      exact Or.inr ⟨w, by simp, h⟩
    | cons x xs =>
      simp only [joinSep, List.append_assoc, List.mem_append] at h
      rcases h with h | h | h
      · exact Or.inr ⟨w, by simp, h⟩
      · exact Or.inl h
      · rcases ih c h with h' | ⟨w', hw', hc⟩
        · exact Or.inl h'
        · exact Or.inr ⟨w', by simp [List.mem_cons] at hw' ⊢; tauto, hc⟩

theorem chain'_of_no_ws {cs : List Char} (h : ∀ c ∈ cs, c.isWhitespace = false) :
    NoWsRun cs := by
  induction cs with
  | nil => exact List.chain'_nil
  | cons c rest ih =>
    refine List.chain'_cons'.mpr ⟨?_, ih fun x hx => h x (by simp [hx])⟩
    intro y _
    have := h c (by simp)
    simp [this]

theorem joinSep_head (sep : List Char) :
    ∀ (x : List Char) (xs : List (List Char)), x ≠ [] →
      (joinSep sep (x :: xs)).head? = x.head? := by
  intro x xs hx
  cases xs with
  | nil => rfl
  | cons y ys =>
    cases x with
    | nil => exact absurd rfl hx
    | cons a as => simp [joinSep]

theorem joinSep_chain' :
    ∀ (l : List (List Char)),
      (∀ w ∈ l, w ≠ [] ∧ ∀ c ∈ w, c.isWhitespace = false) →
      NoWsRun (joinSep [' '] l) := by
  intro l
  induction l with
  | nil => intro _; exact List.chain'_nil
  | cons w ws ih =>
    intro h
    have hw := h w (by simp)
    cases ws with
    | nil => exact chain'_of_no_ws hw.2
    | cons x xs =>
      have hx := h x (by simp)
      simp only [joinSep, List.append_assoc]
      rw [show (' ' :: []) ++ joinSep [' '] (x :: xs) = ' ' :: joinSep [' '] (x :: xs) from rfl]
      refine List.chain'_append.mpr ⟨chain'_of_no_ws hw.2, ?_, ?_⟩
      · refine List.chain'_cons'.mpr ⟨?_, ih fun u hu => h u (by simp [hu])⟩
        intro y hy
        rw [joinSep_head [' '] x xs hx.1] at hy
        have : y ∈ x := List.mem_of_mem_head? hy
        have := hx.2 y this
        simp [this]
      · intro a ha b hb
        have : a ∈ w := List.mem_of_mem_getLast? ha
        have hna := hw.2 a this
        simp only [List.head?_cons, Option.mem_some_iff] at hb
        subst hb
        simp [hna]

theorem cleaned_chars {cs : List Char} {c : Char}
    (h : c ∈ replaceColon (replaceSlash (asciiOnly cs))) :
    printableAscii c = true ∧ c ≠ '/' := by
  simp only [replaceColon, replaceSlash, asciiOnly, List.mem_map, List.mem_filter] at h
  obtain ⟨b, ⟨a, ⟨_, hpa⟩, hab⟩, hbc⟩ := h
  subst hab hbc
  by_cases ha : a = '/'
  · subst ha; refine ⟨by decide, by decide⟩
  · by_cases ha' : a = ':'
    · subst ha'; refine ⟨by decide, by decide⟩
    · simp only [if_neg ha, if_neg ha']
      exact ⟨hpa, ha⟩

theorem cleaned_ws {cs : List Char} {c : Char}
    (hall : ∀ a ∈ cs, printableAscii a = false ∨ a.isWhitespace = true)
    (h : c ∈ replaceColon (replaceSlash (asciiOnly cs))) :
    c.isWhitespace = true := by
  simp only [replaceColon, replaceSlash, asciiOnly, List.mem_map, List.mem_filter] at h
  obtain ⟨b, ⟨a, ⟨hmem, hpa⟩, hab⟩, hbc⟩ := h
  subst hab hbc
  have hws : a.isWhitespace = true := by
    rcases hall a hmem with h' | h'
    · rw [hpa] at h'; cases h'
    · exact h'
  have hslash : a ≠ '/' := by intro hEq; subst hEq; simp [Char.isWhitespace] at hws
  have hcolon : a ≠ ':' := by intro hEq; subst hEq; simp [Char.isWhitespace] at hws
  simp [if_neg hslash, if_neg hcolon, hws]

theorem collapseWs_of_all_ws {cs : List Char} (h : ∀ c ∈ cs, c.isWhitespace = true) :
    collapseWs cs = [] := by
  unfold collapseWs pySplit
  have hd : cs.dropWhile Char.isWhitespace = [] := List.dropWhile_eq_nil_iff.mpr h
  simp [pySplitAux, hd, joinSep]

theorem collapseWs_chars {cs : List Char} {c : Char} (h : c ∈ collapseWs cs) :
    c = ' ' ∨ c ∈ cs := by
  unfold collapseWs at h
  rcases joinSep_mem [' '] (pySplit cs) c h with h' | ⟨w, hw, hc⟩
  · simp at h'; exact Or.inl h'
  · exact Or.inr ((pySplitAux_mem _ cs w hw).2 c hc).2

theorem collapseWs_noWsRun (cs : List Char) : NoWsRun (collapseWs cs) := by
  unfold collapseWs
  refine joinSep_chain' (pySplit cs) ?_
  intro w hw
  have := pySplitAux_mem _ cs w hw
  exact ⟨this.1, fun c hc => (this.2 c hc).1⟩

/-- Claim C7: `sanitize_filename` returns only printable ASCII characters,
none of which is `/`, and never two consecutive whitespace characters;
this holds for every input and every NFKD normalization function. -/
theorem sanitize_filename_ascii_clean (nfkd : List Char → List Char) (name : List Char) :
    (∀ c ∈ sanitize_filename nfkd name, printableAscii c = true ∧ c ≠ '/') ∧
      NoWsRun (sanitize_filename nfkd name) := by
  unfold sanitize_filename
  by_cases h : collapseWs (replaceColon (replaceSlash (asciiOnly (nfkd name)))) = []
  · rw [if_pos h]
    exact ⟨by decide, chain'_of_no_ws (by decide)⟩
  · simp only [if_neg h]
    constructor
    · intro c hc
      rcases collapseWs_chars hc with rfl | hmem
      · exact ⟨by decide, by decide⟩
      · exact cleaned_chars hmem
    · exact collapseWs_noWsRun _

/-- Claim C10: `sanitize_filename` never returns the empty string, and when
every normalized character is non-printable-ASCII or whitespace it returns
the literal `Untitled`. -/
theorem sanitize_filename_never_empty (nfkd : List Char → List Char) (name : List Char) :
    sanitize_filename nfkd name ≠ [] ∧
      ((∀ c ∈ nfkd name, printableAscii c = false ∨ c.isWhitespace = true) →
        sanitize_filename nfkd name = "Untitled".data) := by
  unfold sanitize_filename
  by_cases h : collapseWs (replaceColon (replaceSlash (asciiOnly (nfkd name)))) = []
  · simp only [h, if_pos rfl]
    exact ⟨by decide, fun _ => rfl⟩
  · simp only [if_neg h]
    refine ⟨h, fun hall => ?_⟩
    exact absurd (collapseWs_of_all_ws fun c hc => cleaned_ws hall hc) h

/-- Witness for claim C10 at a concrete input: a name consisting of one
space sanitizes to `Untitled`. -/
theorem sanitize_filename_never_empty_witness :
    sanitize_filename id " ".data ≠ [] ∧ sanitize_filename id " ".data = "Untitled".data := by
  have h := sanitize_filename_never_empty id " ".data
  exact ⟨h.1, h.2 (by decide)⟩

theorem uniqueCandidate_injective (base : String) :
    Function.Injective (uniqueCandidate base) := by
  intro j k h
  match j, k with
  | 0, 0 => rfl
  | 0, k + 1 =>
    exfalso
    have hlen := congrArg String.length h
    simp only [uniqueCandidate, String.length_append] at hlen
    have hp : (" (" : String).length = 2 := rfl
    omega
  | j + 1, 0 =>
    exfalso
    have hlen := congrArg String.length h
    simp only [uniqueCandidate, String.length_append] at hlen
    have hp : (" (" : String).length = 2 := rfl
    omega
  | j + 1, k + 1 =>
    have hd := congrArg String.data h
    simp only [uniqueCandidate, String.data_append, List.append_assoc] at hd
    have h1 := List.append_cancel_left hd
    have h2 := List.append_cancel_left h1
    have h3 := List.append_cancel_right h2
    have : j + 2 = k + 2 := natDec_injective h3
    omega

theorem findFreeName_not_mem (base : String) (used : Finset String) :
    ∀ (fuel k : Nat), (∃ j ≤ fuel, uniqueCandidate base (k + j) ∉ used) →
      findFreeName base used fuel k ∉ used := by
  intro fuel
  induction fuel with
  | zero =>
    intro k ⟨j, hj, hfree⟩
    have : j = 0 := Nat.le_zero.mp hj
    subst this
    simpa [findFreeName] using hfree
  | succ fuel ih =>
    intro k ⟨j, hj, hfree⟩
    by_cases hmem : uniqueCandidate base k ∈ used
    · simp only [findFreeName, if_pos hmem]
      cases j with
      | zero => exact absurd (by simpa using hfree) (by simpa using hmem)
      | succ j' =>
        refine ih (k + 1) ⟨j', by omega, ?_⟩
        have : k + 1 + j' = k + (j' + 1) := by omega
        rw [this]
        exact hfree
    · simpa [findFreeName, if_neg hmem] using hmem

theorem exists_free_candidate (base : String) (used : Finset String) :
    ∃ j ≤ used.card + 1, uniqueCandidate base j ∉ used := by
  by_contra hall
  push_neg at hall
  have hinj : Set.InjOn (uniqueCandidate base) ↑(Finset.range (used.card + 2)) :=
    fun a _ b _ hab => uniqueCandidate_injective base hab
  have hmaps : ∀ a ∈ Finset.range (used.card + 2), uniqueCandidate base a ∈ used := by
    intro a ha
    exact hall a (by simpa using Nat.lt_succ_iff.mp (Finset.mem_range.mp ha))
  have := Finset.card_le_card_of_injOn (uniqueCandidate base) hmaps hinj
  rw [Finset.card_range] at this
  omega

theorem unique_name_not_mem (base : String) (used : Finset String) :
    (unique_name base used).1 ∉ used :=
  findFreeName_not_mem base used (used.card + 1) 0
    (by simpa using exists_free_candidate base used)

theorem unique_name_snd (base : String) (used : Finset String) :
    (unique_name base used).2 = insert (unique_name base used).1 used := rfl

theorem unique_name_base_free {base : String} {used : Finset String} (h : base ∉ used) :
    (unique_name base used).1 = base := by
  simp [unique_name, findFreeName, uniqueCandidate, h]

theorem unique_name_batch_aux (bases : List String) :
    ∀ (acc : List String) (used : Finset String),
      (∀ x ∈ acc, x ∈ used) → acc.Nodup →
      (bases.foldl (fun acc b =>
          let r := unique_name b acc.2
          (acc.1 ++ [r.1], r.2)) (acc, used)).1.Nodup ∧
        ∀ x ∈ (bases.foldl (fun acc b =>
          let r := unique_name b acc.2
          (acc.1 ++ [r.1], r.2)) (acc, used)).1,
          x ∈ (bases.foldl (fun acc b =>
          let r := unique_name b acc.2
          (acc.1 ++ [r.1], r.2)) (acc, used)).2 := by
  induction bases with
  | nil => intro acc used hsub hnd; exact ⟨hnd, hsub⟩
  | cons b bs ih =>
    intro acc used hsub hnd
    simp only [List.foldl_cons]
    refine ih (acc ++ [(unique_name b used).1]) (unique_name b used).2 ?_ ?_
    · intro x hx
      rw [unique_name_snd]
      rcases List.mem_append.mp hx with hx | hx
      · exact Finset.mem_insert_of_mem (hsub x hx)
      · simp at hx
        simp [hx]
    · refine List.nodup_append.mpr ⟨hnd, List.nodup_singleton _, ?_⟩
      intro x hx
      simp only [List.mem_singleton]
      intro hEq
      exact unique_name_not_mem b used (hEq ▸ hsub x hx)

/-- Claim C4: `unique_name` is injective over a single batch sharing one
used-names set — the returned names are pairwise distinct — and a call
whose base name is not yet used returns the base name unchanged. -/
theorem unique_name_batch_injective (bases : List String) (used : Finset String)
    (base : String) (h : base ∉ used) :
    (unique_name_batch bases used).1.Nodup ∧ (unique_name base used).1 = base :=
  ⟨(unique_name_batch_aux bases [] used (by simp) List.nodup_nil).1,
    unique_name_base_free h⟩

/-- Witness for claim C4: a batch of three names with a repeat, over an
initially empty used set. -/
theorem unique_name_batch_injective_witness :
    (unique_name_batch ["Mail", "Mail", "Safari"] ∅).1.Nodup ∧
      (unique_name "Mail" ∅).1 = "Mail" :=
  unique_name_batch_injective ["Mail", "Mail", "Safari"] ∅ "Mail" (Finset.not_mem_empty _)

/-- Claim C1, settled against the code as a bug: for a bundle holding both
`Contents/Resources/Foo.sdef` and `Contents/Resources/en.lproj/Foo.sdef`,
the code returns the non-localized one (the component test of line 160
never fires, leaving depth as the deciding key), contradicting the claim
and the code's own comment; the `.scriptSuite`-without-terminology half of
the claim does hold: resolution yields no resource. -/
theorem find_script_resources_lproj_bug :
    find_script_resources none
      { resourcesExists := true
        sdefs := [["Contents", "Resources", "Foo.sdef"],
          ["Contents", "Resources", "en.lproj", "Foo.sdef"]]
        suites := []
        fileExists := fun _ => false } [] =
      some [["Contents", "Resources", "Foo.sdef"]] ∧
    find_script_resources none
      { resourcesExists := true
        sdefs := []
        suites := [["Contents", "Resources", "Foo.scriptSuite"]]
        fileExists := fun _ => false } [] = none := by
  constructor
  · rfl
  · rfl

/-- Claim C2, counterexample: with the converter binary up to date and a
single app for which `sdp` is missing, the run warns and exits 0 — the
claim says a missing `sdp` tool must abort with exit code 1. -/
theorem missing_sdp_does_not_abort :
    mainGenerate id
      { buildEnv := .upToDate, existingPdfs := [], apps := [appMailNoSdp] } =
      (0, ["Mail: sdp not found; install Xcode to access scripting bridge tools."]) := by
  rfl

/-- Claim C2, amended: the fatal setup errors are exactly the
`ensure_text2pdf` failures — missing converter source, missing `swiftc`,
compile failure — and each aborts the run with exit code 1 and a single
diagnostic line on stderr; every `run_sdp` error (missing `sdp`, non-zero
exit, missing header) and every other per-item failure leaves exit code 0. -/
theorem generator_exit_code_spec (nfkd : List Char → List Char) (w : GenWorld)
    (x : Nat) (t : String) :
    ((mainGenerate nfkd w).1 = 1 ↔ ∃ e, ensure_text2pdf w.buildEnv = .error e) ∧
    (∀ e, ensure_text2pdf w.buildEnv = .error e →
      mainGenerate nfkd w = (1, ["warning: " ++ e])) ∧
    (∃ e, ensure_text2pdf .missingSource = .error e) ∧
    (∃ e, ensure_text2pdf (.stale false x t) = .error e) ∧
    (x ≠ 0 → ∃ e, ensure_text2pdf (.stale true x t) = .error e) ∧
    (ensure_text2pdf w.buildEnv = .ok () → (mainGenerate nfkd w).1 = 0) := by
  refine ⟨?_, ?_, ⟨_, rfl⟩, ⟨_, rfl⟩,
    fun hx => ⟨classifyText2pdfFailure t, by simp [ensure_text2pdf, hx]⟩, ?_⟩
  · cases hE : ensure_text2pdf w.buildEnv with
    | error e =>
      constructor
      · intro _; exact ⟨e, rfl⟩
      · intro _; simp [mainGenerate, generate_pdfs, hE]
    | ok u =>
      cases u
      constructor
      · intro h; simp [mainGenerate, generate_pdfs, hE] at h
      · rintro ⟨e, he⟩; cases he
  · intro e hE
    simp [mainGenerate, generate_pdfs, hE]
  · intro hE
    simp [mainGenerate, generate_pdfs, hE]

/-- Witness for claim C2 (amended): a missing converter source aborts with
exit 1 and one stderr line, while a run whose only failure is a missing
`sdp` exits 0. -/
theorem generator_exit_code_spec_witness :
    mainGenerate id { buildEnv := .missingSource, existingPdfs := [], apps := [] } =
      (1, ["warning: Missing converter source at tools/text2pdf.swift"]) ∧
    (mainGenerate id
      { buildEnv := .upToDate, existingPdfs := [], apps := [appMailNoSdp] }).1 = 0 := by
  constructor
  · exact (generator_exit_code_spec id
      { buildEnv := .missingSource, existingPdfs := [], apps := [] } 1 "").2.1 _ rfl
  · exact (generator_exit_code_spec id
      { buildEnv := .upToDate, existingPdfs := [], apps := [appMailNoSdp] } 1 "").2.2.2.2.2 rfl

/-- Claim C3, counterexample: two discovered applications both named
`Foo`, both fully succeeding, in one run over an empty output directory:
the first writes `Foo.pdf` and the second is skipped because `Foo.pdf`
already exists — no `Foo (2).pdf` is produced. -/
theorem duplicate_name_second_skipped_eval :
    (generate_pdfs id
      { buildEnv := .upToDate, existingPdfs := [], apps := [appFooOk, appFooOk] }).toOption.map
        (fun st => (st.diskPdfs, st.logs)) =
      some (["Foo"], ["Wrote Foo.pdf", "Skipping Foo: Foo.pdf already exists"]) := by
  rfl

/-- Claim C3, amended: when two applications sanitize to the same base
name and the first is processed successfully (its name not previously
used, its PDF written), the second is skipped with a log line because
`<Name>.pdf` then exists on disk, and produces no output file at all. -/
theorem duplicate_name_second_skipped (nfkd : List Char → List Char)
    (st : GenState) (a b : AppEntry) (i : PyPath) (is : List PyPath) (hdr : String)
    (hsafe : sanitizeStr nfkd a.appName ∉ st.diskPdfs)
    (hused : sanitizeStr nfkd a.appName ∉ st.used)
    (hres : a.resources = some (i :: is))
    (hsdp : run_sdp a.sdpEnv (pyBasename (sanitizeStr nfkd a.appName)) = .ok hdr)
    (hconv : a.converterExit = 0)
    (hsame : sanitizeStr nfkd b.appName = sanitizeStr nfkd a.appName) :
    processApp nfkd st a =
      { st with
        used := insert (sanitizeStr nfkd a.appName) st.used
        diskPdfs := st.diskPdfs ++ [sanitizeStr nfkd a.appName]
        logs := st.logs ++ ["Wrote " ++ sanitizeStr nfkd a.appName ++ ".pdf"] } ∧
    processApp nfkd (processApp nfkd st a) b =
      { processApp nfkd st a with
        logs := (processApp nfkd st a).logs ++
          ["Skipping " ++ b.appName ++ ": " ++
            sanitizeStr nfkd a.appName ++ ".pdf already exists"] } := by
  have hfree := unique_name_base_free hused
  have h1 : processApp nfkd st a =
      { st with
        used := insert (sanitizeStr nfkd a.appName) st.used
        diskPdfs := st.diskPdfs ++ [sanitizeStr nfkd a.appName]
        logs := st.logs ++ ["Wrote " ++ sanitizeStr nfkd a.appName ++ ".pdf"] } := by
    simp only [processApp, if_neg hsafe, hres, hsdp, hconv]
    rw [unique_name_snd, hfree]
    simp
  refine ⟨h1, ?_⟩
  rw [h1]
  simp only [processApp, hsame]
  rw [if_pos (by simp)]

theorem lookup_map_setKey (k k' : String) (v : TxtFile) (h : (k' == k) = false) :
    ∀ txts : List (String × TxtFile),
      (txts.map fun q => if q.1 = k then (k, v) else q).lookup k' = txts.lookup k' := by
  intro txts
  induction txts with
  | nil => rfl
  | cons q rest ih =>
    obtain ⟨a, b⟩ := q
    by_cases hak : a = k
    · subst hak
      simp only [List.map_cons]
      rw [if_pos trivial]
      simp only [List.lookup_cons, h]
      exact ih
    · simp only [List.map_cons, if_neg hak, List.lookup_cons]
      cases hka : (k' == a) <;> simp [hka, ih]

theorem lookup_append_single (k k' : String) (v : TxtFile) (h : (k' == k) = false) :
    ∀ txts : List (String × TxtFile), (txts ++ [(k, v)]).lookup k' = txts.lookup k' := by
  intro txts
  induction txts with
  | nil => simp [List.lookup_cons, h]
  | cons q rest ih =>
    obtain ⟨a, b⟩ := q
    cases hka : (k' == a) <;> simp [List.lookup_cons, hka, ih]

theorem lookup_setTxt_ne {txts : List (String × TxtFile)} {k k' : String} {v : TxtFile}
    (h : (k' == k) = false) : (setTxt txts k v).lookup k' = txts.lookup k' := by
  unfold setTxt
  split
  · exact lookup_map_setKey k k' v h txts
  · exact lookup_append_single k k' v h txts

theorem processPdf_loop_preserves (conv : String → ConvBehavior) (p : PdfFile) (t : TxtFile)
    (hmt : p.mtime ≤ t.mtime) :
    ∀ (L : List PdfFile) (st : ConvState),
      (∀ q ∈ L, q.name = p.name → q.mtime = p.mtime) →
      st.txts.lookup p.name = some t → p.name ∉ st.invoked →
      (L.foldl (processPdf conv) st).txts.lookup p.name = some t ∧
        p.name ∉ (L.foldl (processPdf conv) st).invoked := by
  intro L
  induction L with
  | nil => intro st _ h1 h2; exact ⟨h1, h2⟩
  | cons q L ih =>
    intro st hL h1 h2
    simp only [List.foldl_cons]
    by_cases hname : q.name = p.name
    · have hq : txtUpToDate st.txts q = true := by
        unfold txtUpToDate
        rw [hname, h1, hL q (by simp) hname]
        simpa using hmt
      rw [processPdf, if_pos hq]
      exact ih _ (fun r hr hn => hL r (by simp [hr]) hn) h1 h2
    · have hbeq : (p.name == q.name) = false := by
        simp only [beq_eq_false_iff_ne, ne_eq]
        exact fun hEq => hname hEq.symm
      simp only [processPdf]
      split
      · exact ih _ (fun r hr hn => hL r (by simp [hr]) hn) h1 h2
      · split
        · refine ih _ (fun r hr hn => hL r (by simp [hr]) hn) (by simpa using h1) ?_
          simp only [List.mem_append, List.mem_singleton]
          rintro (hmem | hEq)
          · exact h2 hmem
          · exact hname hEq.symm
        · refine ih _ (fun r hr hn => hL r (by simp [hr]) hn) ?_ ?_
          · show (setTxt st.txts q.name _).lookup p.name = some t
            rw [lookup_setTxt_ne hbeq]
            exact h1
          · simp only [List.mem_append, List.mem_singleton]
            rintro (hmem | hEq)
            · exact h2 hmem
            · exact hname hEq.symm

/-- Claim C5: when a text output exists whose modification time is at
least the PDF input's, a re-run of `convert_pdfs` does not invoke the
converter for that pair and leaves the text file (mtime and contents)
unchanged. -/
theorem convert_pdfs_skips_up_to_date (w : ConvWorld) (p : PdfFile) (t : TxtFile)
    (hmem : p ∈ w.pdfs)
    (hnodup : (w.pdfs.map PdfFile.name).Nodup)
    (hlook : w.txts.lookup p.name = some t)
    (hmt : p.mtime ≤ t.mtime) :
    ∀ st, convert_pdfs w = .ok st →
      p.name ∉ st.invoked ∧ st.txts.lookup p.name = some t := by
  intro st hok
  simp only [convert_pdfs] at hok
  by_cases hT : w.targetExists = false
  · rw [if_pos hT] at hok; cases hok
  · rw [if_neg hT] at hok
    by_cases hEmp : (w.pdfs.insertionSort fun a b : PdfFile => a.name ≤ b.name) = []
    · rw [if_pos hEmp] at hok
      cases hok
      exact ⟨by simp, hlook⟩
    · rw [if_neg hEmp] at hok
      cases hE : ensure_tool w.toolEnv with
      | error e => rw [hE] at hok; cases hok
      | ok u =>
        cases u
        rw [hE] at hok
        cases hok
        have hperm := List.perm_insertionSort
          (fun a b : PdfFile => a.name ≤ b.name) w.pdfs
        have hL : ∀ q ∈ w.pdfs.insertionSort (fun a b : PdfFile => a.name ≤ b.name),
            q.name = p.name → q.mtime = p.mtime := by
          intro q hq hn
          have hq' : q ∈ w.pdfs := hperm.mem_iff.mp hq
          have := List.inj_on_of_nodup_map hnodup hq' hmem hn
          rw [this]
        have := processPdf_loop_preserves w.conv p t hmt
          (w.pdfs.insertionSort fun a b : PdfFile => a.name ≤ b.name)
          { txts := w.txts, invoked := [], toolBuilt := true, textDirCreated := true,
            readme := none, logs := [], warns := [] }
          hL hlook (by simp)
        exact ⟨this.2, this.1⟩

/-- Claim C9: an existing target directory with no PDFs makes
`convert_pdfs` warn and return before anything else: the tool is not
built, the text directory is not created, nothing is converted, and no
README is written. -/
theorem convert_pdfs_no_pdfs (w : ConvWorld)
    (h1 : w.targetExists = true) (h2 : w.pdfs = []) :
    convert_pdfs w = .ok
      { txts := w.txts, invoked := [], toolBuilt := false, textDirCreated := false,
        readme := none, logs := [], warns := ["No PDF files found in AppScripts"] } := by
  simp only [convert_pdfs, h1, h2]
  simp [List.insertionSort]

/-- Witness for claim C9: an empty directory, with the converter source
deliberately missing — the run still succeeds with only the warning,
showing `ensure_tool` is never reached. -/
theorem convert_pdfs_no_pdfs_witness :
    convert_pdfs
      { targetExists := true, pdfs := [], txts := [], toolEnv := .missingSource,
        conv := fun _ => { exitCode := 0, output := { mtime := 0, content := "" } } } =
      .ok { txts := [], invoked := [], toolBuilt := false, textDirCreated := false,
            readme := none, logs := [], warns := ["No PDF files found in AppScripts"] } :=
  convert_pdfs_no_pdfs _ rfl rfl

/-- Witness for claim C5: on `convC5World` the run succeeds, the converter
is never invoked for `Foo`, and the text entry keeps mtime 7 and its
contents. -/
theorem convert_pdfs_skips_up_to_date_witness :
    "Foo" ∉ convC5State.invoked ∧
      convC5State.txts.lookup "Foo" = some { mtime := 7, content := "orig" } :=
  convert_pdfs_skips_up_to_date convC5World { name := "Foo", mtime := 5 }
    { mtime := 7, content := "orig" } (by decide) (by decide) (by decide) (by decide)
    convC5State (by rfl)

/-- Claim C8: `build_readme` is a function of the directory contents
alone: with no `.txt` entries it writes the fixed header plus the literal
empty-state line; with some, one bullet per `.txt` artifact in sorted-name
order; permuted directory enumerations give byte-identical output. -/
theorem build_readme_spec (entries e₂ : List String) :
    (entries.filter txtGlob = [] →
      build_readme entries =
        "# Extracted AppleScript Dictionaries\n\nText exports generated from Objective-C scripting bridge headers.\n\nNo text exports available.\n") ∧
    (entries.filter txtGlob ≠ [] →
      ∃ l : List String, l.Perm (entries.filter txtGlob) ∧ l.Sorted (· ≤ ·) ∧
        build_readme entries =
          String.intercalate "\n" (readmeHeader ++ l.map bulletOf ++ [""])) ∧
    (entries.Perm e₂ → build_readme entries = build_readme e₂) := by
  refine ⟨?_, ?_, ?_⟩
  · intro h
    simp only [build_readme, h, List.insertionSort]
    rfl
  · intro h
    refine ⟨(entries.filter txtGlob).insertionSort (· ≤ ·),
      List.perm_insertionSort _ _, List.sorted_insertionSort _ _, ?_⟩
    have hfilter : ((entries.filter txtGlob).insertionSort (· ≤ ·)).filter
        (fun n => n ≠ "README.md") = (entries.filter txtGlob).insertionSort (· ≤ ·) := by
      apply List.filter_eq_self.mpr
      intro n hn
      have hmem : n ∈ entries.filter txtGlob := (List.perm_insertionSort _ _).subset hn
      have hglob : txtGlob n = true := List.of_mem_filter hmem
      simp only [ne_eq, decide_eq_true_eq]
      intro hEq
      rw [hEq] at hglob
      exact absurd hglob (by decide)
    have hne : ((entries.filter txtGlob).insertionSort (· ≤ ·)) ≠ [] := by
      intro h0
      apply h
      have hp := List.perm_insertionSort ((· ≤ ·) : String → String → Prop)
        (entries.filter txtGlob)
      rw [h0] at hp
      exact (hp.symm).eq_nil
    simp only [build_readme, hfilter]
    rw [if_neg (by simpa using hne)]
  · intro hp
    have h1 := hp.filter txtGlob
    have heq : (entries.filter txtGlob).insertionSort (· ≤ ·) =
        (e₂.filter txtGlob).insertionSort (· ≤ ·) :=
      List.eq_of_perm_of_sorted
        ((List.perm_insertionSort _ _).trans (h1.trans (List.perm_insertionSort _ _).symm))
        (List.sorted_insertionSort _ _) (List.sorted_insertionSort _ _)
    simp only [build_readme, heq]

/-- Witness for claim C8: two enumeration orders of the same two text
files give byte-identical output, and the output lists them sorted. -/
theorem build_readme_spec_witness :
    build_readme ["b.txt", "a.txt"] = build_readme ["a.txt", "b.txt"] ∧
    (∃ l : List String, l.Perm (["b.txt", "a.txt"].filter txtGlob) ∧ l.Sorted (· ≤ ·) ∧
      build_readme ["b.txt", "a.txt"] =
        String.intercalate "\n" (readmeHeader ++ l.map bulletOf ++ [""])) :=
  ⟨(build_readme_spec ["b.txt", "a.txt"] ["a.txt", "b.txt"]).2.2 (by decide),
    (build_readme_spec ["b.txt", "a.txt"] []).2.1 (by decide)⟩

/-- Claim C6: in both batch loops a single item's failure only appends a
warning (for a failed conversion in the generator, also registering the
name) and never aborts: both loops are total folds, so the items after a
failure are processed exactly as from the post-failure state. -/
theorem per_item_failures_warn_and_continue
    (nfkd : List Char → List Char) (st : GenState) (b : AppEntry)
    (i : PyPath) (is : List PyPath) (hdr e : String)
    (cst : ConvState) (cb : String → ConvBehavior) (p : PdfFile)
    (as₁ as₂ : List AppEntry) (ps₁ ps₂ : List PdfFile) :
    (sanitizeStr nfkd b.appName ∉ st.diskPdfs → b.resources = none →
      processApp nfkd st b =
        { st with warns := st.warns ++
            ["Skipping " ++ b.appName ++ ": no scripting definition found"] }) ∧
    (sanitizeStr nfkd b.appName ∉ st.diskPdfs → b.resources = some (i :: is) →
      run_sdp b.sdpEnv (pyBasename (sanitizeStr nfkd b.appName)) = .error e →
      processApp nfkd st b = { st with warns := st.warns ++ [b.appName ++ ": " ++ e] }) ∧
    (sanitizeStr nfkd b.appName ∉ st.diskPdfs → b.resources = some (i :: is) →
      run_sdp b.sdpEnv (pyBasename (sanitizeStr nfkd b.appName)) = .ok hdr →
      b.converterExit ≠ 0 →
      processApp nfkd st b =
        { st with
          used := (unique_name (sanitizeStr nfkd b.appName) st.used).2
          warns := st.warns ++ ["Failed to convert header for " ++ b.appName] }) ∧
    ((as₁ ++ as₂).foldl (processApp nfkd) st =
      as₂.foldl (processApp nfkd) (as₁.foldl (processApp nfkd) st)) ∧
    (txtUpToDate cst.txts p = false → (cb p.name).exitCode ≠ 0 →
      processPdf cb cst p =
        { cst with
          logs := cst.logs ++ ["Extracting text from " ++ p.name ++ ".pdf"]
          invoked := cst.invoked ++ [p.name]
          warns := cst.warns ++ ["Failed to convert " ++ p.name ++ ".pdf"] }) ∧
    ((ps₁ ++ ps₂).foldl (processPdf cb) cst =
      ps₂.foldl (processPdf cb) (ps₁.foldl (processPdf cb) cst)) := by
  refine ⟨?_, ?_, ?_, List.foldl_append _ _ _ _, ?_, List.foldl_append _ _ _ _⟩
  · intro h1 h2
    simp only [processApp, if_neg h1, h2]
  · intro h1 h2 h3
    simp only [processApp, if_neg h1, h2, h3]
  · intro h1 h2 h3 h4
    simp only [processApp, if_neg h1, h2, h3, if_neg h4]
  · intro h5 h6
    simp only [processPdf, h5, if_pos h6]
    simp

/-- Witness for claim C6: a no-resource application and a failing
converter invocation, each producing exactly the extra warning. -/
theorem per_item_failures_warn_and_continue_witness :
    processApp id genStateEmpty appNotesNoRes =
      { genStateEmpty with
        warns := genStateEmpty.warns ++
          ["Skipping " ++ appNotesNoRes.appName ++ ": no scripting definition found"] } ∧
    processPdf convAlwaysFail convStateEmpty { name := "Foo", mtime := 5 } =
      { convStateEmpty with
        logs := convStateEmpty.logs ++ ["Extracting text from " ++ "Foo" ++ ".pdf"]
        invoked := convStateEmpty.invoked ++ ["Foo"]
        warns := convStateEmpty.warns ++ ["Failed to convert " ++ "Foo" ++ ".pdf"] } := by
  have h := per_item_failures_warn_and_continue id genStateEmpty appNotesNoRes
    [] [] "" "" convStateEmpty convAlwaysFail { name := "Foo", mtime := 5 } [] [] [] []
  exact ⟨h.1 (by decide) rfl, h.2.2.2.2.1 (by decide) (by decide)⟩

/-- Witness for claim C3 (amended): two fully-succeeding applications both
named `Foo` over an empty output directory — the second only logs a skip. -/
theorem duplicate_name_second_skipped_witness :
    processApp id (processApp id genStateEmpty appFooOk) appFooOk =
      { processApp id genStateEmpty appFooOk with
        logs := (processApp id genStateEmpty appFooOk).logs ++
          ["Skipping " ++ appFooOk.appName ++ ": " ++
            sanitizeStr id appFooOk.appName ++ ".pdf already exists"] } :=
  (duplicate_name_second_skipped id genStateEmpty appFooOk appFooOk
    ["Foo.sdef"] [] "Foo.h" (by decide) (by decide) rfl rfl rfl rfl).2

end MacScripts
